import Mathlib

/-!
Verification development for the imbalanced-algorithms repository
(src/smote.py): a shallow embedding of the SMOTE synthetic sampler and
the SMOTEBoost boosting orchestrator, with theorems settling the frozen
claims about them.

Modelling conventions:
* Feature values, labels and weights are rationals (the program uses
  IEEE float64; all claims under study are about control flow and exact
  algebraic structure, not rounding).
* numpy's global Mersenne-Twister stream is abstracted as a deterministic
  pure function of (seed, position): `np.random.seed s` resets the
  position to 0, and every draw reads `mix s pos` and advances `pos`.
  Any fixed deterministic `mix` is a faithful model of the stream
  structure; the concrete constants are arbitrary.
* IEEE NaN (which would arise in the dead weight-normalization code at
  lines 177-183 when the supplied weights sum to zero: x / 0.0) is
  modelled by `Option ℚ` (`none` = NaN; every comparison against `none`
  is `false`, as in IEEE).
* Fallible numpy / sklearn calls are modelled with `Except SBError`;
  each `SBError` constructor stands for one distinct ValueError raised
  by the library code.
-/

/-- Error taxonomy: each constructor is one distinct ValueError the
program can raise.
* `invalidParameter`: learning_rate must be greater than zero
  (SMOTEBoost.fit line 155).
* `invalidWeights`: Attempting to fit with a non-positive weighted
  number of samples (line 181; unreachable, see `nameError`).
* `nameError`: NameError, name check_array is not defined — line 175
  calls check_array, but the module never imports it (lines 10-12 import
  only check_random_state, check_X_y and shuffle from sklearn.utils), so
  every fit call with a supplied sample_weight crashes here.
* `insufficientSamples`: Expected n_neighbors less-or-equal n_samples
  (sklearn kneighbors, reached from SMOTE.sample line 53).
* `emptyFit`: Found array with 0 sample(s) (NearestNeighbors.fit on an
  empty minority set, SMOTE.fit line 77).
* `emptyChoice`: a must be non-empty (np.random.choice, line 55).
* `emptyRandint`: low greater-or-equal high (np.random.randint, line 50).
* `invalidInput`: check_X_y rejected (X, y) (line 167). -/
inductive SBError where
  | invalidParameter
  | invalidWeights
  | nameError
  | insufficientSamples
  | emptyFit
  | emptyChoice
  | emptyRandint
  | invalidInput
deriving DecidableEq

/-! ## Model of numpy's global pseudo-random stream -/

/-- State of numpy's global random stream: the seed it was last seeded
with, and how many draws have been consumed since seeding. -/
structure NpRng where
  seed : Nat
  pos : Nat
deriving DecidableEq

/-- Abstract deterministic word stream indexed by (seed, position);
stands in for the Mersenne-Twister output. -/
def mix (s i : Nat) : Nat :=
  (s * 1103515245 + i * 747796405 + 54321) % 2 ^ 31

/-- Model of np.random.seed: reset the stream position. -/
def npSeed (s : Nat) : NpRng := ⟨s, 0⟩

/-- Consume one word from the global stream. -/
def npNext (g : NpRng) : Nat × NpRng :=
  (mix g.seed g.pos, ⟨g.seed, g.pos + 1⟩)

/-- Model of np.random.randint(0, m): uniform in [0, m); numpy raises
ValueError (low >= high) when m = 0. -/
def npRandint (m : Nat) (g : NpRng) : Except SBError (Nat × NpRng) :=
  if m = 0 then Except.error SBError.emptyRandint
  else
    let (v, g') := npNext g
    Except.ok (v % m, g')

/-- Model of np.random.choice(l): uniform element of l; numpy raises
ValueError when l is empty. -/
def npChoice (l : List Nat) (g : NpRng) : Except SBError (Nat × NpRng) :=
  if l.isEmpty then Except.error SBError.emptyChoice
  else
    let (v, g') := npNext g
    Except.ok (l.getD (v % l.length) 0, g')

/-- Model of np.random.random(): a scalar in [0, 1). -/
def npRandom (g : NpRng) : ℚ × NpRng :=
  let (v, g') := npNext g
  (((v % 2 ^ 31 : ℕ) : ℚ) / 2 ^ 31, g')

/-! ## Model of IEEE float values that may be NaN -/

/-- A float value: `some q` is an ordinary number, `none` is NaN (also
absorbing the infinities, which only arise here from division by zero
and behave like NaN w.r.t. every comparison this program performs). -/
abbrev FVal : Type := Option ℚ

/-- Addition, NaN-propagating. -/
def fadd : FVal → FVal → FVal
  | some a, some b => some (a + b)
  | _, _ => none

/-- Division: division by zero (or by/of NaN) yields NaN. -/
def fdiv : FVal → FVal → FVal
  | some a, some b => if b = 0 then none else some (a / b)
  | _, _ => none

/-- Absolute value, NaN-propagating. -/
def fabs : FVal → FVal
  | some a => some |a|
  | none => none

/-- Sum of a list of float values (NaN-propagating). -/
def fsum (l : List FVal) : FVal := l.foldr fadd (some 0)

/-- IEEE comparison: any comparison involving NaN is false. -/
def fle : FVal → FVal → Bool
  | some a, some b => decide (a ≤ b)
  | _, _ => false

/-- Model of sklearn.preprocessing.normalize(w, axis=0, norm=l1) on a
column vector: divide by the sum of absolute values; sklearn replaces a
zero norm by 1, leaving the vector unchanged. -/
def l1normalize (w : List FVal) : List FVal :=
  let s := fsum (w.map fabs)
  if s = some 0 then w else w.map (fun x => fdiv x s)

/-! ## Synthetic sampler (class SMOTE, src/smote.py lines 14-79) -/

/-- Squared euclidean distance between two feature rows. -/
def sqDist (a b : List ℚ) : ℚ :=
  (List.zipWith (fun x y => (x - y) * (x - y)) a b).sum

/-- Neighbor ordering used by the NearestNeighbors index: indices of the
rows of X sorted by distance to row j, ties broken by index (the tie
rule in sklearn is implementation-defined; any deterministic rule is a
faithful model and ties are irrelevant to the claims). -/
def nnRel (X : List (List ℚ)) (j : Nat) (a b : Nat) : Prop :=
  sqDist (X.getD j []) (X.getD a []) < sqDist (X.getD j []) (X.getD b []) ∨
    (sqDist (X.getD j []) (X.getD a []) = sqDist (X.getD j []) (X.getD b []) ∧ a ≤ b)

instance (X : List (List ℚ)) (j : Nat) : DecidableRel (nnRel X j) := by
  intro a b
  unfold nnRel
  infer_instance

/-- All row indices of X ordered by distance to row j. -/
def neighborOrder (X : List (List ℚ)) (j : Nat) : List Nat :=
  List.insertionSort (nnRel X j) (List.range X.length)

/-- Fitted state of the SMOTE sampler: k_neighbors, the random_state
seed, the stored minority set X and the stored feature count. -/
structure SMOTEModel where
  k : Nat
  seed : Nat
  X : List (List ℚ)
  nFeatures : Nat
deriving DecidableEq

/-- SMOTE.fit (lines 64-79): stores X, records shape, fits the
NearestNeighbors index with n_neighbors = k+1.  The index fit raises
only for an empty point set; no minimum-size check against k happens
here. -/
def smoteFit (k seed : Nat) (X : List (List ℚ)) : Except SBError SMOTEModel :=
  if X.isEmpty then Except.error SBError.emptyFit
  else Except.ok ⟨k, seed, X, (X.headD []).length⟩

/-- The neighbor query of SMOTE.sample (lines 53-54): the k+1 nearest
rows to row j with the first (nearest) one dropped — the [:, 1:] slice
that excludes the sample itself.  sklearn's kneighbors raises when
n_neighbors = k+1 exceeds the number of stored samples. -/
def kneighborsExcl (m : SMOTEModel) (j : Nat) : Except SBError (List Nat) :=
  if m.X.length < m.k + 1 then
    Except.error SBError.insufficientSamples
  else Except.ok (((neighborOrder m.X j).take (m.k + 1)).drop 1)

/-- One interpolated row: X[j] + gap * (X[nn] - X[j]) elementwise, with
the single scalar gap applied to every feature (line 60). -/
def interpRow (b nb : List ℚ) (gap : ℚ) : List ℚ :=
  List.zipWith (fun x y => x + gap * (y - x)) b nb

/-- The loop body of SMOTE.sample (lines 49-60), run n times: draw a
base index, query its neighbors, draw one neighbor, draw a gap, emit
the interpolated row. -/
def smoteSampleGo (m : SMOTEModel) : Nat → NpRng → Except SBError (List (List ℚ) × NpRng)
  | 0, g => Except.ok ([], g)
  | Nat.succ n, g =>
    match npRandint m.X.length g with
    | Except.error e => Except.error e
    | Except.ok (j, g1) =>
      match kneighborsExcl m j with
      | Except.error e => Except.error e
      | Except.ok nn =>
        match npChoice nn g1 with
        | Except.error e => Except.error e
        | Except.ok (c, g2) =>
          let (gap, g3) := npRandom g2
          match smoteSampleGo m n g3 with
          | Except.error e => Except.error e
          | Except.ok (rest, g4) =>
            Except.ok (interpRow (m.X.getD j []) (m.X.getD c []) gap :: rest, g4)

/-- SMOTE.sample (lines 32-62).  Its first statement is
np.random.seed(self.random_state) (line 45): the ambient global stream
state g0 is discarded and the stream restarts at the stored seed. -/
def smoteSample (m : SMOTEModel) (n : Nat) (_g0 : NpRng) :
    Except SBError (List (List ℚ) × NpRng) :=
  smoteSampleGo m n (npSeed m.seed)

/-! ## Boosting orchestrator (class SMOTEBoost, src/smote.py lines 81-257) -/

/-- Constructor configuration of SMOTEBoost relevant to fit. -/
structure SBParams where
  n_samples : Nat
  n_estimators : Nat
  k_neighbors : Nat
  learning_rate : ℚ
  seed : Nat
deriving DecidableEq

/-- The external Booster capability (AdaBoostClassifier._boost): given
the iteration index, the current dataset, labels and weights, returns
(updated weights or a stop signal, learner weight, learner error).  Its
internal math is out of scope; it is a parameter of the model. -/
def Booster : Type :=
  Nat → List (List ℚ) → List ℚ → List FVal → (Option (List FVal) × ℚ × ℚ)

/-- Mutable state carried across boosting iterations: dataset, labels,
weight vector, the two per-slot ensemble arrays, and the global numpy
stream state. -/
structure SBState where
  X : List (List ℚ)
  y : List ℚ
  w : List FVal
  ew : List ℚ
  ee : List ℚ
  rng : NpRng
deriving DecidableEq

/-- Outcome of one loop iteration: continue with a new state, or break
out of the loop with a final state. -/
inductive StepRes where
  | cont (st : SBState)
  | stop (st : SBState)
deriving DecidableEq

/-- The state held by a step outcome. -/
def StepRes.state : StepRes → SBState
  | .cont st => st
  | .stop st => st

/-- Minority subset extraction, X[np.where(y == minority)] (line 206). -/
def minoritySubset (X : List (List ℚ)) (y : List ℚ) (t : ℚ) : List (List ℚ) :=
  ((X.zip y).filter (fun p => p.2 = t)).map (fun p => p.1)

/-- Labels of y in first-occurrence order (the key order of Counter(y),
which preserves insertion order). -/
def uniqueLabels (y : List ℚ) : List ℚ :=
  y.foldl (fun acc v => if v ∈ acc then acc else acc ++ [v]) []

/-- Minority class determination, min(Counter(y), key=get) (line 189):
the first-seen label with strictly minimal count. -/
def minorityOf (y : List ℚ) : ℚ :=
  (uniqueLabels y).foldl
    (fun best v => if y.count v < y.count best then v else best)
    (y.headD 0)

/-- Two's-complement wrap into the int64 range (the out-of-range branch
of a float64-to-int64 C cast is platform-defined; wrap is the model). -/
def int64Wrap (z : ℤ) : ℤ := (z + 2 ^ 63) % 2 ^ 64 - 2 ^ 63

/-- Model of np.full(_, fill_value=t, dtype=np.int64) followed by the
promotion back to the label dtype on np.append (lines 209-210): the
label value truncated toward zero to an int64. -/
def int64Rat (t : ℚ) : ℚ := ((int64Wrap (Int.tdiv t.num (t.den : ℤ)) : ℤ) : ℚ)

/-- The rational t is exactly representable as a 64-bit integer. -/
def ReprInt64 (t : ℚ) : Prop :=
  ∃ z : ℤ, t = (z : ℚ) ∧ -(2 ^ 63) ≤ z ∧ z < 2 ^ 63

/-- Initial weight handling of SMOTEBoost.fit (lines 170-183): absent
weights become uniform 1/N (lines 171-173).  For supplied weights, line
175 calls check_array — a name the module never imports — so this
branch raises NameError unconditionally, before the normalization at
line 177 and the sum check at line 180 can run. -/
def initWeights (nN : Nat) (sw : Option (List ℚ)) : Except SBError (List FVal) :=
  match sw with
  | none => Except.ok (List.replicate nN (some (1 / (nN : ℚ))))
  | some _ => Except.error SBError.nameError

/-- Lines 177-183 as written: divide the supplied weights by their sum,
then check the (already normalized) sum for non-positivity.  This code
is unreachable in the program — line 175 raises NameError first (see
initWeights) — and is modelled separately only to analyze the dead
check.  Division by a zero sum produces NaN, mirrored with fdiv. -/
def deadNormalizeCheck (w : List ℚ) : Except SBError (List FVal) :=
  let w' := w.map (fun x => fdiv (some x) (some w.sum))
  if fle (fsum w') (some 0) then
    Except.error SBError.invalidWeights
  else Except.ok w'

/-- The combined weight vector handed to the Booster (lines 212-224):
each synthetic sample gets initial weight 1/N with N the dataset size
before this iteration's augmentation, and the combined vector is L1
renormalized. -/
def augmentedWeights (st : SBState) (n : Nat) : List FVal :=
  l1normalize (st.w ++ List.replicate n (some (1 / (st.X.length : ℚ))))

/-- One iteration of the boosting loop (lines 204-255): SMOTE step on
the current minority subset, label and weight the synthetic batch,
append, renormalize, invoke the Booster, record, and decide whether to
continue. -/
def sbStep (P : SBParams) (b : Booster) (mt : ℚ) (i : Nat) (st : SBState) :
    Except SBError StepRes :=
  match smoteFit P.k_neighbors P.seed (minoritySubset st.X st.y mt) with
  | Except.error e => Except.error e
  | Except.ok sm =>
    match smoteSample sm P.n_samples st.rng with
    | Except.error e => Except.error e
    | Except.ok (Xsyn, rng') =>
      let X' := st.X ++ Xsyn
      let y' := st.y ++ List.replicate P.n_samples (int64Rat mt)
      let w' := augmentedWeights st P.n_samples
      match b i X' y' w' with
      | (none, _, _) => Except.ok (.stop ⟨X', y', w', st.ew, st.ee, rng'⟩)
      | (some nw, a, e) =>
        let ew' := st.ew.set i a
        let ee' := st.ee.set i e
        if e = 0 then Except.ok (.stop ⟨X', y', nw, ew', ee', rng'⟩)
        else
          let s := fsum nw
          if fle s (some 0) then Except.ok (.stop ⟨X', y', nw, ew', ee', rng'⟩)
          else if i < P.n_estimators - 1 then
            Except.ok (.cont ⟨X', y', nw.map (fun x => fdiv x s), ew', ee', rng'⟩)
          else Except.ok (.cont ⟨X', y', nw, ew', ee', rng'⟩)

/-- The boosting loop (for iboost in range(n_estimators)), written with
the remaining iteration count as fuel and the current iteration index. -/
def sbLoop (P : SBParams) (b : Booster) (mt : ℚ) :
    Nat → Nat → SBState → Except SBError SBState
  | 0, _, st => Except.ok st
  | Nat.succ fuel, i, st =>
    match sbStep P b mt i st with
    | Except.error e => Except.error e
    | Except.ok (.stop st') => Except.ok st'
    | Except.ok (.cont st') => sbLoop P b mt fuel (i + 1) st'

/-- Result of a successful SMOTEBoost.fit: the ensemble arrays, the
resolved minority class, and the final (grown) dataset. -/
structure SBResult where
  estimator_weights : List ℚ
  estimator_errors : List ℚ
  minority : ℚ
  X : List (List ℚ)
  y : List ℚ
deriving DecidableEq

/-- The body of SMOTEBoost.fit after the learning_rate check (lines
157-257): input validation, weight initialization, minority class
resolution, ensemble array initialization, and the boosting loop. -/
def smoteboostFitBody (P : SBParams) (b : Booster) (X : List (List ℚ))
    (y : List ℚ) (sw : Option (List ℚ)) (mt : Option ℚ) (g : NpRng) :
    Except SBError SBResult :=
  if X.length = 0 ∨ X.length ≠ y.length then
    Except.error SBError.invalidInput
  else
    match initWeights X.length sw with
    | Except.error e => Except.error e
    | Except.ok w0 =>
      let minority := mt.getD (minorityOf y)
      let st0 : SBState :=
        ⟨X, y, w0, List.replicate P.n_estimators 0,
          List.replicate P.n_estimators 1, g⟩
      match sbLoop P b minority P.n_estimators 0 st0 with
      | Except.error e => Except.error e
      | Except.ok stF =>
        Except.ok ⟨stF.ew, stF.ee, minority, stF.X, stF.y⟩

/-- SMOTEBoost.fit (lines 124-257).  The first statement is the
learning_rate check (lines 154-155). -/
def smoteboostFit (P : SBParams) (b : Booster) (X : List (List ℚ))
    (y : List ℚ) (sw : Option (List ℚ)) (mt : Option ℚ) (g : NpRng) :
    Except SBError SBResult :=
  if P.learning_rate ≤ 0 then
    Except.error SBError.invalidParameter
  else smoteboostFitBody P b X y sw mt g

/-! ## Helper lemmas: distances and the neighbor ordering -/

theorem sqDist_nonneg (a b : List ℚ) : 0 ≤ sqDist a b := by
  unfold sqDist
  induction a generalizing b with
  | nil => simp
  | cons x xs ih =>
    cases b with
    | nil => simp
    | cons y ys =>
      simp only [List.zipWith, List.sum_cons]
      have h1 : 0 ≤ (x - y) * (x - y) := mul_self_nonneg _
      have h2 := ih ys
      linarith

theorem sqDist_self (a : List ℚ) : sqDist a a = 0 := by
  unfold sqDist
  induction a with
  | nil => simp
  | cons x xs ih => simp only [List.zipWith, List.sum_cons]; simp [ih]

theorem sqDist_eq_zero (a b : List ℚ) (hlen : a.length = b.length)
    (h : sqDist a b = 0) : a = b := by
  induction a generalizing b with
  | nil => cases b with
    | nil => rfl
    | cons y ys => simp at hlen
  | cons x xs ih =>
    cases b with
    | nil => simp at hlen
    | cons y ys =>
      have hcons : sqDist (x :: xs) (y :: ys) = (x - y) * (x - y) + sqDist xs ys := by
        unfold sqDist
        simp [List.zipWith]
      rw [hcons] at h
      have h1 : 0 ≤ (x - y) * (x - y) := mul_self_nonneg _
      have h2 : 0 ≤ sqDist xs ys := sqDist_nonneg xs ys
      have h3 : (x - y) * (x - y) = 0 := by linarith
      have h4 : sqDist xs ys = 0 := by linarith
      have hx : x = y := by
        have h5 := mul_self_eq_zero.mp h3
        linarith [sub_eq_zero.mp h5]
      simp only [List.length_cons, Nat.succ_inj] at hlen
      rw [hx, ih ys hlen h4]

instance (X : List (List ℚ)) (j : Nat) : IsTotal Nat (nnRel X j) := by
  constructor
  intro a b
  rcases lt_trichotomy (sqDist (X.getD j []) (X.getD a []))
      (sqDist (X.getD j []) (X.getD b [])) with h | h | h
  · exact Or.inl (Or.inl h)
  · rcases Nat.le_total a b with hab | hba
    · exact Or.inl (Or.inr ⟨h, hab⟩)
    · exact Or.inr (Or.inr ⟨h.symm, hba⟩)
  · exact Or.inr (Or.inl h)

instance (X : List (List ℚ)) (j : Nat) : IsTrans Nat (nnRel X j) := by
  constructor
  intro a b c hab hbc
  rcases hab with h1 | ⟨h1, h1'⟩
  · rcases hbc with h2 | ⟨h2, _⟩
    · exact Or.inl (h1.trans h2)
    · exact Or.inl (h2 ▸ h1)
  · rcases hbc with h2 | ⟨h2, h2'⟩
    · exact Or.inl (h1 ▸ h2)
    · exact Or.inr ⟨h1.trans h2, h1'.trans h2'⟩

theorem neighborOrder_perm (X : List (List ℚ)) (j : Nat) :
    (neighborOrder X j).Perm (List.range X.length) :=
  List.perm_insertionSort _ _

theorem neighborOrder_length (X : List (List ℚ)) (j : Nat) :
    (neighborOrder X j).length = X.length := by
  have := (neighborOrder_perm X j).length_eq
  simpa using this

theorem neighborOrder_mem (X : List (List ℚ)) (j i : Nat) :
    i ∈ neighborOrder X j ↔ i < X.length := by
  rw [(neighborOrder_perm X j).mem_iff, List.mem_range]

theorem neighborOrder_nodup (X : List (List ℚ)) (j : Nat) :
    (neighborOrder X j).Nodup :=
  ((neighborOrder_perm X j).nodup_iff).mpr (List.nodup_range _)

theorem neighborOrder_sorted (X : List (List ℚ)) (j : Nat) :
    List.Sorted (nnRel X j) (neighborOrder X j) :=
  List.sorted_insertionSort _ _

/-- With pairwise-distinct rectangular rows, the nearest row to row j is
row j itself, so the ordering starts with j. -/
theorem neighborOrder_head (X : List (List ℚ)) (j : Nat)
    (hnd : X.Nodup) (hrect : ∀ r ∈ X, r.length = (X.headD []).length)
    (hj : j < X.length) :
    ∃ t, neighborOrder X j = j :: t := by
  have hlen : (neighborOrder X j).length = X.length := neighborOrder_length X j
  obtain ⟨h, t, ht⟩ : ∃ h t, neighborOrder X j = h :: t := by
    cases hno : neighborOrder X j with
    | nil => rw [hno] at hlen; simp at hlen; omega
    | cons h t => exact ⟨h, t, rfl⟩
  have hhead_mem : h ∈ neighborOrder X j := by rw [ht]; exact List.mem_cons_self _ _
  have hhj : h < X.length := (neighborOrder_mem X j h).mp hhead_mem
  by_cases heq : h = j
  · exact ⟨t, heq ▸ ht⟩
  · exfalso
    have hjmem : j ∈ neighborOrder X j := (neighborOrder_mem X j j).mpr hj
    have hjt : j ∈ t := by
      rw [ht] at hjmem
      rcases List.mem_cons.mp hjmem with h1 | h1
      · exact absurd h1.symm heq
      · exact h1
    have hrel : nnRel X j h j := by
      have hs := neighborOrder_sorted X j
      rw [ht] at hs
      exact List.rel_of_sorted_cons hs j hjt
    have hkeyj : sqDist (X.getD j []) (X.getD j []) = 0 := sqDist_self _
    have hne : X.getD h [] ≠ X.getD j [] := by
      intro hc
      apply heq
      have hgh : X.getD h [] = X.get ⟨h, hhj⟩ := by
        rw [List.getD_eq_getElem X [] hhj]
        rfl
      have hgj : X.getD j [] = X.get ⟨j, hj⟩ := by
        rw [List.getD_eq_getElem X [] hj]
        rfl
      rw [hgh, hgj] at hc
      have h6 := (List.Nodup.get_inj_iff hnd).mp hc
      exact congrArg Fin.val h6
    have hlenh : (X.getD j []).length = (X.getD h []).length := by
      have hmj : X.getD j [] ∈ X := by
        rw [List.getD_eq_getElem X [] hj]
        exact List.getElem_mem hj
      have hmh : X.getD h [] ∈ X := by
        rw [List.getD_eq_getElem X [] hhj]
        exact List.getElem_mem hhj
      rw [hrect _ hmj, hrect _ hmh]
    have hpos : 0 < sqDist (X.getD j []) (X.getD h []) := by
      rcases lt_or_eq_of_le (sqDist_nonneg (X.getD j []) (X.getD h [])) with h1 | h1
      · exact h1
      · exact absurd (sqDist_eq_zero _ _ hlenh h1.symm).symm hne
    rcases hrel with h1 | ⟨h1, _⟩
    · rw [hkeyj] at h1; linarith
    · rw [hkeyj] at h1; linarith

/-! ## Helper lemmas: the neighbor query and the sampling loop -/

theorem kneighborsExcl_ok (m : SMOTEModel) (h : m.k + 1 ≤ m.X.length) (j : Nat) :
    kneighborsExcl m j =
      Except.ok (((neighborOrder m.X j).take (m.k + 1)).drop 1) := by
  unfold kneighborsExcl
  rw [if_neg (not_lt.mpr h)]

theorem kneighborsExcl_length (m : SMOTEModel) (h : m.k + 1 ≤ m.X.length) (j : Nat) :
    (((neighborOrder m.X j).take (m.k + 1)).drop 1).length = m.k := by
  rw [List.length_drop, List.length_take, neighborOrder_length]
  omega

theorem kneighborsExcl_mem_lt (m : SMOTEModel) (j c : Nat) (l : List Nat)
    (h : kneighborsExcl m j = Except.ok l) (hc : c ∈ l) : c < m.X.length := by
  unfold kneighborsExcl at h
  by_cases hlen : m.X.length < m.k + 1
  · rw [if_pos hlen] at h
    cases h
  · rw [if_neg hlen] at h
    cases h
    have h1 : c ∈ (neighborOrder m.X j).take (m.k + 1) := List.mem_of_mem_drop hc
    have h2 : c ∈ neighborOrder m.X j := List.mem_of_mem_take h1
    exact (neighborOrder_mem m.X j c).mp h2

/-- With pairwise-distinct rectangular rows, the neighbor list for row j
never contains j itself: the dropped first entry is exactly j. -/
theorem kneighborsExcl_not_self (m : SMOTEModel) (j : Nat) (l : List Nat)
    (hnd : m.X.Nodup)
    (hrect : ∀ r ∈ m.X, r.length = (m.X.headD []).length)
    (hj : j < m.X.length)
    (h : kneighborsExcl m j = Except.ok l) : j ∉ l := by
  unfold kneighborsExcl at h
  by_cases hlen : m.X.length < m.k + 1
  · rw [if_pos hlen] at h
    cases h
  · rw [if_neg hlen] at h
    cases h
    obtain ⟨t, ht⟩ := neighborOrder_head m.X j hnd hrect hj
    have hnodup : (neighborOrder m.X j).Nodup := neighborOrder_nodup m.X j
    rw [ht] at hnodup
    have hjt : j ∉ t := (List.nodup_cons.mp hnodup).1
    rw [ht]
    intro hmem
    apply hjt
    have h1 : ((j :: t).take (m.k + 1)).drop 1 = t.take m.k := by
      rw [List.take_succ_cons]
      rfl
    rw [h1] at hmem
    exact List.mem_of_mem_take hmem

theorem npRandom_nonneg (g : NpRng) : 0 ≤ (npRandom g).1 := by
  unfold npRandom npNext
  positivity

theorem npRandom_lt_one (g : NpRng) : (npRandom g).1 < 1 := by
  unfold npRandom npNext
  rw [div_lt_one (by positivity)]
  have h : (mix g.seed g.pos) % 2 ^ 31 < 2 ^ 31 := Nat.mod_lt _ (by positivity)
  calc ((mix g.seed g.pos % 2 ^ 31 : ℕ) : ℚ) < ((2 ^ 31 : ℕ) : ℚ) := by
        exact_mod_cast h
    _ = 2 ^ 31 := by norm_num

theorem npRandint_ok (m : Nat) (g : NpRng) (hm : m ≠ 0) :
    npRandint m g = Except.ok (mix g.seed g.pos % m, ⟨g.seed, g.pos + 1⟩) := by
  unfold npRandint npNext
  rw [if_neg hm]

theorem npChoice_ok_mem (l : List Nat) (g : NpRng) (c : Nat) (g' : NpRng)
    (h : npChoice l g = Except.ok (c, g')) : c ∈ l := by
  unfold npChoice npNext at h
  by_cases he : l.isEmpty
  · rw [if_pos he] at h
    cases h
  · rw [if_neg he] at h
    cases h
    have hne : l ≠ [] := by
      intro hc
      rw [hc] at he
      exact he rfl
    have hpos : 0 < l.length := List.length_pos.mpr hne
    have hlt : mix g.seed g.pos % l.length < l.length := Nat.mod_lt _ hpos
    rw [List.getD_eq_getElem l 0 hlt]
    exact List.getElem_mem hlt

theorem npChoice_ok_of_ne (l : List Nat) (g : NpRng) (hne : l ≠ []) :
    npChoice l g =
      Except.ok (l.getD (mix g.seed g.pos % l.length) 0, ⟨g.seed, g.pos + 1⟩) := by
  unfold npChoice npNext
  rw [if_neg (by simpa [List.isEmpty_iff] using hne)]

theorem smoteSampleGo_ok (m : SMOTEModel) (hk : 1 ≤ m.k)
    (hlen : m.k + 1 ≤ m.X.length) :
    ∀ (n : Nat) (g : NpRng),
      ∃ S g', smoteSampleGo m n g = Except.ok (S, g') ∧ S.length = n := by
  intro n
  induction n with
  | zero => exact fun g => ⟨[], g, rfl, rfl⟩
  | succ n ih =>
    intro g
    have hne : m.X.length ≠ 0 := by omega
    have h1 : npRandint m.X.length g =
        Except.ok (mix g.seed g.pos % m.X.length, ⟨g.seed, g.pos + 1⟩) :=
      npRandint_ok _ _ hne
    have h2 := kneighborsExcl_ok m hlen (mix g.seed g.pos % m.X.length)
    have hnnne :
        (((neighborOrder m.X (mix g.seed g.pos % m.X.length)).take (m.k + 1)).drop 1) ≠ [] := by
      intro hc
      have h4 := kneighborsExcl_length m hlen (mix g.seed g.pos % m.X.length)
      rw [hc] at h4
      simp at h4
      omega
    have h3 := npChoice_ok_of_ne _ (⟨g.seed, g.pos + 1⟩ : NpRng) hnnne
    obtain ⟨S, g', hgo, hlenS⟩ := ih ⟨g.seed, g.pos + 1 + 1 + 1⟩
    refine ⟨interpRow
        (m.X.getD (mix g.seed g.pos % m.X.length) [])
        (m.X.getD
          ((List.drop 1 (List.take (m.k + 1)
              (neighborOrder m.X (mix g.seed g.pos % m.X.length)))).getD
            (mix g.seed (g.pos + 1) %
              (List.drop 1 (List.take (m.k + 1)
                (neighborOrder m.X (mix g.seed g.pos % m.X.length)))).length) 0) [])
        (((mix g.seed (g.pos + 1 + 1) % 2 ^ 31 : ℕ) : ℚ) / 2 ^ 31) :: S, g', ?_, ?_⟩
    · simp only [smoteSampleGo, h1, h2, h3, npRandom, npNext, hgo]
    · simp [hlenS]

theorem npRandint_lt (m : Nat) (g : NpRng) (j : Nat) (g' : NpRng)
    (h : npRandint m g = Except.ok (j, g')) : j < m := by
  unfold npRandint npNext at h
  split at h
  · cases h
  · injection h with h2
    have h3 := congrArg Prod.fst h2
    simp only [] at h3
    rw [← h3]
    rename_i hm
    exact Nat.mod_lt _ (Nat.pos_of_ne_zero hm)

theorem smoteSampleGo_insufficient (m : SMOTEModel) (hlen : m.X.length < m.k + 1)
    (hne : m.X.length ≠ 0) (n : Nat) (hn : 1 ≤ n) (g : NpRng) :
    smoteSampleGo m n g = Except.error SBError.insufficientSamples := by
  cases n with
  | zero => omega
  | succ n =>
    have h1 : npRandint m.X.length g =
        Except.ok (mix g.seed g.pos % m.X.length, ⟨g.seed, g.pos + 1⟩) :=
      npRandint_ok _ _ hne
    have h2 : kneighborsExcl m (mix g.seed g.pos % m.X.length) =
        Except.error SBError.insufficientSamples := by
      unfold kneighborsExcl
      rw [if_pos hlen]
    rw [smoteSampleGo, h1]
    simp only [h2]

/-- Every row produced by the sampling loop is an interpolation
`base + gap * (neighbor - base)` with the base drawn from the stored
minority set, the neighbor drawn from the k-nearest list of the base
(self excluded), and a single scalar gap in [0, 1). -/
theorem smoteSampleGo_rows (m : SMOTEModel) :
    ∀ (n : Nat) (g : NpRng) (S : List (List ℚ)) (g' : NpRng),
      smoteSampleGo m n g = Except.ok (S, g') →
      ∀ row ∈ S, ∃ j c gap l,
        j < m.X.length ∧ kneighborsExcl m j = Except.ok l ∧ c ∈ l ∧
        0 ≤ gap ∧ gap < 1 ∧
        row = interpRow (m.X.getD j []) (m.X.getD c []) gap := by
  intro n
  induction n with
  | zero =>
    intro g S g' h row hrow
    unfold smoteSampleGo at h
    cases h
    simp at hrow
  | succ n ih =>
    intro g S g' h row hrow
    rw [smoteSampleGo] at h
    cases h1 : npRandint m.X.length g with
    | error e =>
      rw [h1] at h
      cases h
    | ok p =>
      obtain ⟨j, g1⟩ := p
      rw [h1] at h
      simp only [] at h
      cases h2 : kneighborsExcl m j with
      | error e =>
        rw [h2] at h
        cases h
      | ok nn =>
        rw [h2] at h
        simp only [] at h
        cases h3 : npChoice nn g1 with
        | error e =>
          rw [h3] at h
          cases h
        | ok p2 =>
          obtain ⟨c, g2⟩ := p2
          rw [h3] at h
          simp only [] at h
          rcases h4 : npRandom g2 with ⟨gap, g3⟩
          rw [h4] at h
          simp only [] at h
          cases h5 : smoteSampleGo m n g3 with
          | error e =>
            rw [h5] at h
            cases h
          | ok p3 =>
            obtain ⟨rest, g4⟩ := p3
            rw [h5] at h
            simp only [] at h
            cases h
            rcases List.mem_cons.mp hrow with hr1 | hr2
            · refine ⟨j, c, gap, nn, npRandint_lt _ _ _ _ h1, h2,
                npChoice_ok_mem nn g1 c g2 h3, ?_, ?_, hr1⟩
              · have h6 := npRandom_nonneg g2
                rw [h4] at h6
                exact h6
              · have h6 := npRandom_lt_one g2
                rw [h4] at h6
                exact h6
            · exact ih _ _ _ h5 row hr2

/-! ## Helper lemmas: float values and weight normalization -/

theorem fsum_map_some (l : List ℚ) : fsum (l.map some) = some l.sum := by
  induction l with
  | nil => rfl
  | cons x xs ih =>
    unfold fsum at ih ⊢
    simp only [List.map, List.foldr, ih, fadd]
    rw [List.sum_cons]

theorem sum_map_div (l : List ℚ) (T : ℚ) :
    (l.map (fun x => x / T)).sum = l.sum / T := by
  induction l with
  | nil => simp
  | cons x xs ih => simp [ih, add_div]

theorem fabs_map_some_of_nonneg (l : List ℚ) (hnn : ∀ x ∈ l, 0 ≤ x) :
    (l.map some).map fabs = l.map some := by
  induction l with
  | nil => rfl
  | cons x xs ih =>
    simp only [List.map]
    rw [ih (fun y hy => hnn y (List.mem_cons_of_mem x hy))]
    have hx : fabs (some x) = some |x| := rfl
    rw [hx, abs_of_nonneg (hnn x (List.mem_cons_self x xs))]

theorem map_fdiv_some (l : List ℚ) (T : ℚ) (hT : T ≠ 0) :
    (l.map some).map (fun x => fdiv x (some T)) = (l.map (fun x => x / T)).map some := by
  induction l with
  | nil => rfl
  | cons x xs ih =>
    simp only [List.map]
    rw [ih]
    have hx : fdiv (some x) (some T) = if T = 0 then none else some (x / T) := rfl
    rw [hx, if_neg hT]

/-- L1 normalization of an all-number nonnegative weight vector with a
positive sum: it divides by the sum and the result sums to exactly 1. -/
theorem l1normalize_map_some (l : List ℚ) (hnn : ∀ x ∈ l, 0 ≤ x)
    (hpos : 0 < l.sum) :
    l1normalize (l.map some) = (l.map (fun x => x / l.sum)).map some ∧
    fsum (l1normalize (l.map some)) = some 1 := by
  have habs : (l.map some).map fabs = l.map some := fabs_map_some_of_nonneg l hnn
  have hTne : l.sum ≠ 0 := ne_of_gt hpos
  have heq : l1normalize (l.map some) = (l.map (fun x => x / l.sum)).map some := by
    unfold l1normalize
    simp only [habs, fsum_map_some]
    rw [if_neg (by simpa using hTne)]
    exact map_fdiv_some l l.sum hTne
  refine ⟨heq, ?_⟩
  rw [heq, fsum_map_some, sum_map_div, div_self hTne]

/-- The dead check on weights with a nonzero sum: dividing by the sum
makes the result sum to 1, so the subsequent non-positivity check could
not fire even if the code were reachable — also for a negative sum. -/
theorem deadNormalizeCheck_nonzero (w : List ℚ) (hw : w.sum ≠ 0) :
    deadNormalizeCheck w =
      Except.ok ((w.map (fun x => x / w.sum)).map some) ∧
    fsum ((w.map (fun x => x / w.sum)).map some) = some 1 := by
  have h1 : w.map (fun x => fdiv (some x) (some w.sum)) =
      (w.map (fun x => x / w.sum)).map some := by
    have h2 := map_fdiv_some w w.sum hw
    rw [List.map_map] at h2
    exact h2
  have hsum : fsum ((w.map (fun x => x / w.sum)).map some) = some 1 := by
    rw [fsum_map_some, sum_map_div, div_self hw]
  refine ⟨?_, hsum⟩
  unfold deadNormalizeCheck
  simp only [h1, hsum]
  have hfle : fle (some 1) (some 0) = false := by
    have hd : fle (some 1) (some 0) = decide ((1 : ℚ) ≤ 0) := rfl
    rw [hd, decide_eq_false (by norm_num)]
  rw [hfle]
  simp

/-- The dead check on weights with sum exactly zero: every weight would
become NaN (division by zero) and the NaN sum makes the non-positivity
comparison false, so even here the check could not fire. -/
theorem deadNormalizeCheck_zero (w : List ℚ) (hw : w.sum = 0)
    (hne : w ≠ []) :
    deadNormalizeCheck w = Except.ok (w.map (fun _ => (none : FVal))) := by
  have h1 : w.map (fun x => fdiv (some x) (some w.sum)) =
      w.map (fun _ => (none : FVal)) := by
    apply List.map_congr_left
    intro x _
    have hx : fdiv (some x) (some w.sum) =
        if w.sum = 0 then none else some (x / w.sum) := rfl
    rw [hx, if_pos hw]
  unfold deadNormalizeCheck
  simp only [h1]
  have h2 : fle (fsum (w.map (fun _ => (none : FVal)))) (some 0) = false := by
    cases w with
    | nil => exact absurd rfl hne
    | cons x xs => rfl
  rw [h2]
  simp

theorem smoteFit_ok (k seed : Nat) (X : List (List ℚ)) (hne : X ≠ []) :
    smoteFit k seed X = Except.ok ⟨k, seed, X, (X.headD []).length⟩ := by
  unfold smoteFit
  rw [if_neg (by simpa [List.isEmpty_iff] using hne)]

theorem smoteSampleGo_length (m : SMOTEModel) :
    ∀ (n : Nat) (g : NpRng) (S : List (List ℚ)) (g' : NpRng),
      smoteSampleGo m n g = Except.ok (S, g') → S.length = n := by
  intro n
  induction n with
  | zero =>
    intro g S g' h
    unfold smoteSampleGo at h
    cases h
    rfl
  | succ n ih =>
    intro g S g' h
    rw [smoteSampleGo] at h
    cases h1 : npRandint m.X.length g with
    | error e => rw [h1] at h; cases h
    | ok p =>
      obtain ⟨j, g1⟩ := p
      rw [h1] at h
      simp only [] at h
      cases h2 : kneighborsExcl m j with
      | error e => rw [h2] at h; cases h
      | ok nn =>
        rw [h2] at h
        simp only [] at h
        cases h3 : npChoice nn g1 with
        | error e => rw [h3] at h; cases h
        | ok p2 =>
          obtain ⟨c, g2⟩ := p2
          rw [h3] at h
          simp only [] at h
          rcases h4 : npRandom g2 with ⟨gap, g3⟩
          rw [h4] at h
          simp only [] at h
          cases h5 : smoteSampleGo m n g3 with
          | error e => rw [h5] at h; cases h
          | ok p3 =>
            obtain ⟨rest, g4⟩ := p3
            rw [h5] at h
            simp only [] at h
            cases h
            simp [ih _ _ _ h5]

theorem l1normalize_length (w : List FVal) :
    (l1normalize w).length = w.length := by
  show (if fsum (w.map fabs) = some 0 then w
    else w.map (fun x => fdiv x (fsum (w.map fabs)))).length = w.length
  split
  · rfl
  · exact List.length_map _ _

theorem augmentedWeights_length (st : SBState) (n : Nat) :
    (augmentedWeights st n).length = st.w.length + n := by
  unfold augmentedWeights
  rw [l1normalize_length, List.length_append, List.length_replicate]

/-- Anatomy of a successful loop iteration: whatever branch is taken,
the new dataset is the old one with the synthetic batch appended at the
end, and the labels gain exactly the int64-coerced minority label. -/
theorem sbStep_append (P : SBParams) (b : Booster) (mt : ℚ) (i : Nat)
    (st : SBState) (r : StepRes) (h : sbStep P b mt i st = Except.ok r) :
    ∃ sm Xsyn rng',
      smoteFit P.k_neighbors P.seed (minoritySubset st.X st.y mt) = Except.ok sm ∧
      smoteSample sm P.n_samples st.rng = Except.ok (Xsyn, rng') ∧
      Xsyn.length = P.n_samples ∧
      r.state.X = st.X ++ Xsyn ∧
      r.state.y = st.y ++ List.replicate P.n_samples (int64Rat mt) := by
  unfold sbStep at h
  cases h1 : smoteFit P.k_neighbors P.seed (minoritySubset st.X st.y mt) with
  | error e => rw [h1] at h; cases h
  | ok sm =>
    rw [h1] at h
    simp only [] at h
    cases h2 : smoteSample sm P.n_samples st.rng with
    | error e => rw [h2] at h; cases h
    | ok p =>
      obtain ⟨Xsyn, rng'⟩ := p
      rw [h2] at h
      simp only [] at h
      have h2' : smoteSampleGo sm P.n_samples (npSeed sm.seed) =
          Except.ok (Xsyn, rng') := h2
      have hlen : Xsyn.length = P.n_samples :=
        smoteSampleGo_length sm P.n_samples (npSeed sm.seed) Xsyn rng' h2'
      refine ⟨sm, Xsyn, rng', rfl, h2, hlen, ?_⟩
      rcases h3 : b i (st.X ++ Xsyn)
          (st.y ++ List.replicate P.n_samples (int64Rat mt))
          (augmentedWeights st P.n_samples) with ⟨onw, a, e⟩
      rw [h3] at h
      cases onw with
      | none =>
        simp only [] at h
        cases h
        exact ⟨rfl, rfl⟩
      | some nw =>
        simp only [] at h
        by_cases he : e = 0
        · rw [if_pos he] at h
          cases h
          exact ⟨rfl, rfl⟩
        · rw [if_neg he] at h
          by_cases hs : fle (fsum nw) (some 0) = true
          · rw [if_pos hs] at h
            cases h
            exact ⟨rfl, rfl⟩
          · rw [if_neg hs] at h
            by_cases hi : i < P.n_estimators - 1
            · rw [if_pos hi] at h
              cases h
              exact ⟨rfl, rfl⟩
            · rw [if_neg hi] at h
              cases h
              exact ⟨rfl, rfl⟩

/-- Every successful loop iteration grows the dataset, the labels and
the weight vector by exactly n_samples entries (for a Booster that
returns weights of the same length it was given). -/
theorem sbStep_lengths (P : SBParams) (b : Booster) (mt : ℚ) (i : Nat)
    (st : SBState) (r : StepRes)
    (hb : ∀ X y w nw a e, b i X y w = (some nw, a, e) → nw.length = w.length)
    (h : sbStep P b mt i st = Except.ok r) :
    r.state.X.length = st.X.length + P.n_samples ∧
    r.state.y.length = st.y.length + P.n_samples ∧
    r.state.w.length = st.w.length + P.n_samples := by
  unfold sbStep at h
  cases h1 : smoteFit P.k_neighbors P.seed (minoritySubset st.X st.y mt) with
  | error e => rw [h1] at h; cases h
  | ok sm =>
    rw [h1] at h
    simp only [] at h
    cases h2 : smoteSample sm P.n_samples st.rng with
    | error e => rw [h2] at h; cases h
    | ok p =>
      obtain ⟨Xsyn, rng'⟩ := p
      rw [h2] at h
      simp only [] at h
      have h2' : smoteSampleGo sm P.n_samples (npSeed sm.seed) =
          Except.ok (Xsyn, rng') := h2
      have hlen : Xsyn.length = P.n_samples :=
        smoteSampleGo_length sm P.n_samples (npSeed sm.seed) Xsyn rng' h2'
      have hwaug : (augmentedWeights st P.n_samples).length =
          st.w.length + P.n_samples := augmentedWeights_length st P.n_samples
      rcases h3 : b i (st.X ++ Xsyn)
          (st.y ++ List.replicate P.n_samples (int64Rat mt))
          (augmentedWeights st P.n_samples) with ⟨onw, a, e⟩
      rw [h3] at h
      cases onw with
      | none =>
        simp only [] at h
        cases h
        refine ⟨by simp [StepRes.state, hlen], by simp [StepRes.state],
          by simp [StepRes.state, hwaug]⟩
      | some nw =>
        simp only [] at h
        have hnwlen : nw.length = st.w.length + P.n_samples := by
          rw [hb _ _ _ _ _ _ h3, hwaug]
        by_cases he : e = 0
        · rw [if_pos he] at h
          cases h
          refine ⟨by simp [StepRes.state, hlen], by simp [StepRes.state],
            by simp [StepRes.state, hnwlen]⟩
        · rw [if_neg he] at h
          by_cases hs : fle (fsum nw) (some 0) = true
          · rw [if_pos hs] at h
            cases h
            refine ⟨by simp [StepRes.state, hlen], by simp [StepRes.state],
            by simp [StepRes.state, hnwlen]⟩
          · rw [if_neg hs] at h
            by_cases hi : i < P.n_estimators - 1
            · rw [if_pos hi] at h
              cases h
              refine ⟨by simp [StepRes.state, hlen], by simp [StepRes.state],
            by simp [StepRes.state, hnwlen]⟩
            · rw [if_neg hi] at h
              cases h
              refine ⟨by simp [StepRes.state, hlen], by simp [StepRes.state],
            by simp [StepRes.state, hnwlen]⟩

theorem smoteFit_ok_inv (k seed : Nat) (X : List (List ℚ)) (m : SMOTEModel)
    (h : smoteFit k seed X = Except.ok m) :
    X ≠ [] ∧ m = ⟨k, seed, X, (X.headD []).length⟩ := by
  unfold smoteFit at h
  by_cases he : X.isEmpty
  · rw [if_pos he] at h
    cases h
  · rw [if_neg he] at h
    cases h
    exact ⟨by simpa [List.isEmpty_iff] using he, rfl⟩

/-- Counting loop iterations that complete without early stop: run the
loop body j times from iteration index i, requiring a continue outcome
each time. -/
def sbIter (P : SBParams) (b : Booster) (mt : ℚ) : Nat → Nat → SBState → Option SBState
  | 0, _, st => some st
  | Nat.succ fuel, i, st =>
    match sbStep P b mt i st with
    | Except.ok (StepRes.cont st') => sbIter P b mt fuel (i + 1) st'
    | _ => none

/-- j completed iterations are a prefix of the loop: the remaining loop
continues from the state they produce. -/
theorem sbIter_sbLoop (P : SBParams) (b : Booster) (mt : ℚ) :
    ∀ (j i fuel : Nat) (st st' : SBState),
      sbIter P b mt j i st = some st' →
      sbLoop P b mt (j + fuel) i st = sbLoop P b mt fuel (i + j) st' := by
  intro j
  induction j with
  | zero =>
    intro i fuel st st' h
    unfold sbIter at h
    cases h
    simp
  | succ j ih =>
    intro i fuel st st' h
    rw [sbIter] at h
    cases h1 : sbStep P b mt i st with
    | error e => rw [h1] at h; cases h
    | ok r =>
      rw [h1] at h
      cases r with
      | stop st2 => simp only [] at h; cases h
      | cont st2 =>
        simp only [] at h
        have h2 : Nat.succ j + fuel = Nat.succ (j + fuel) := by omega
        rw [h2, sbLoop, h1]
        simp only []
        have h3 := ih (i + 1) fuel st2 st' h
        rw [h3]
        congr 1
        omega

theorem sbLoop_error_of_step (P : SBParams) (b : Booster) (mt : ℚ)
    (fuel i : Nat) (st : SBState) (e : SBError)
    (h : sbStep P b mt i st = Except.error e) :
    sbLoop P b mt (fuel + 1) i st = Except.error e := by
  rw [sbLoop, h]

theorem smoteboostFit_loop_error (P : SBParams) (b : Booster)
    (X : List (List ℚ)) (y : List ℚ) (sw : Option (List ℚ)) (mt : Option ℚ)
    (g : NpRng) (w0 : List FVal) (e : SBError)
    (hlr : ¬P.learning_rate ≤ 0)
    (hxy : ¬(X.length = 0 ∨ X.length ≠ y.length))
    (hw : initWeights X.length sw = Except.ok w0)
    (hloop : sbLoop P b (mt.getD (minorityOf y)) P.n_estimators 0
        ⟨X, y, w0, List.replicate P.n_estimators 0,
          List.replicate P.n_estimators 1, g⟩ = Except.error e) :
    smoteboostFit P b X y sw mt g = Except.error e := by
  unfold smoteboostFit smoteboostFitBody
  rw [if_neg hlr, if_neg hxy, hw]
  simp only [hloop]

theorem smoteboostFit_loop_ok (P : SBParams) (b : Booster)
    (X : List (List ℚ)) (y : List ℚ) (sw : Option (List ℚ)) (mt : Option ℚ)
    (g : NpRng) (w0 : List FVal) (stF : SBState)
    (hlr : ¬P.learning_rate ≤ 0)
    (hxy : ¬(X.length = 0 ∨ X.length ≠ y.length))
    (hw : initWeights X.length sw = Except.ok w0)
    (hloop : sbLoop P b (mt.getD (minorityOf y)) P.n_estimators 0
        ⟨X, y, w0, List.replicate P.n_estimators 0,
          List.replicate P.n_estimators 1, g⟩ = Except.ok stF) :
    smoteboostFit P b X y sw mt g =
      Except.ok ⟨stF.ew, stF.ee, mt.getD (minorityOf y), stF.X, stF.y⟩ := by
  unfold smoteboostFit smoteboostFitBody
  rw [if_neg hlr, if_neg hxy, hw]
  simp only [hloop]

/-- The loop only ever appends to the dataset and the labels. -/
theorem sbLoop_append (P : SBParams) (b : Booster) (mt : ℚ) :
    ∀ (fuel i : Nat) (st st' : SBState),
      sbLoop P b mt fuel i st = Except.ok st' →
      ∃ tX ty, st'.X = st.X ++ tX ∧ st'.y = st.y ++ ty := by
  intro fuel
  induction fuel with
  | zero =>
    intro i st st' h
    unfold sbLoop at h
    cases h
    exact ⟨[], [], by simp, by simp⟩
  | succ fuel ih =>
    intro i st st' h
    rw [sbLoop] at h
    cases h1 : sbStep P b mt i st with
    | error e => rw [h1] at h; cases h
    | ok r =>
      rw [h1] at h
      obtain ⟨sm, Xs, rg, hfit, hsam, hl, hX, hy⟩ := sbStep_append P b mt i st r h1
      cases r with
      | stop st2 =>
        simp only [] at h
        cases h
        exact ⟨Xs, List.replicate P.n_samples (int64Rat mt), hX, hy⟩
      | cont st2 =>
        simp only [] at h
        obtain ⟨tX, ty, hX2, hy2⟩ := ih (i + 1) st2 st' h
        refine ⟨Xs ++ tX, List.replicate P.n_samples (int64Rat mt) ++ ty, ?_, ?_⟩
        · rw [hX2]
          have hX' : st2.X = st.X ++ Xs := hX
          rw [hX', List.append_assoc]
        · rw [hy2]
          have hy' : st2.y = st.y ++ List.replicate P.n_samples (int64Rat mt) := hy
          rw [hy', List.append_assoc]

/-! ## Helper lemmas: int64 label coercion -/

theorem int64Wrap_range (z : ℤ) :
    -(2 ^ 63) ≤ int64Wrap z ∧ int64Wrap z < 2 ^ 63 := by
  unfold int64Wrap
  constructor
  · have h := Int.emod_nonneg (z + 2 ^ 63) (by norm_num : ((2:ℤ) ^ 64) ≠ 0)
    linarith
  · have h := Int.emod_lt_of_pos (z + 2 ^ 63) (by norm_num : (0:ℤ) < 2 ^ 64)
    have h2 : (2:ℤ) ^ 64 = 2 ^ 63 + 2 ^ 63 := by norm_num
    linarith

theorem int64Wrap_eq_self (z : ℤ) (h1 : -(2 ^ 63) ≤ z) (h2 : z < 2 ^ 63) :
    int64Wrap z = z := by
  unfold int64Wrap
  have h3 : (z + 2 ^ 63) % 2 ^ 64 = z + 2 ^ 63 := by
    apply Int.emod_eq_of_lt
    · linarith
    · have h4 : (2:ℤ) ^ 64 = 2 ^ 63 + 2 ^ 63 := by norm_num
      linarith
  rw [h3]
  ring

theorem int64Rat_intCast (z : ℤ) (h1 : -(2 ^ 63) ≤ z) (h2 : z < 2 ^ 63) :
    int64Rat (z : ℚ) = (z : ℚ) := by
  unfold int64Rat
  rw [Rat.num_intCast, Rat.den_intCast]
  norm_num
  rw [int64Wrap_eq_self z h1 h2]

/-- The label survives the int64 coercion exactly when it is an integer
in the 64-bit range. -/
theorem int64Rat_eq_iff (t : ℚ) : int64Rat t = t ↔ ReprInt64 t := by
  constructor
  · intro h
    exact ⟨int64Wrap (Int.tdiv t.num (t.den : ℤ)), h.symm,
      (int64Wrap_range _).1, (int64Wrap_range _).2⟩
  · rintro ⟨z, rfl, h1, h2⟩
    exact int64Rat_intCast z h1 h2

/-- When the coerced label differs from the minority label, the
appended synthetic rows are invisible to later minority extraction. -/
theorem minoritySubset_append_ne (X Xs : List (List ℚ)) (y : List ℚ)
    (n : Nat) (lbl mt : ℚ) (hlen : X.length = y.length)
    (hne : lbl ≠ mt) :
    minoritySubset (X ++ Xs) (y ++ List.replicate n lbl) mt =
      minoritySubset X y mt := by
  unfold minoritySubset
  rw [List.zip_append hlen, List.filter_append, List.map_append]
  have hz : (Xs.zip (List.replicate n lbl)).filter
      (fun p => decide (p.2 = mt)) = [] := by
    apply List.filter_eq_nil_iff.mpr
    intro p hp
    have h2 := (List.of_mem_zip hp).2
    have h3 := List.eq_of_mem_replicate h2
    simp [h3, hne]
  rw [hz]
  simp

theorem getD_set_ne (l : List ℚ) (i j : Nat) (a d : ℚ) (h : i ≠ j) :
    (l.set i a).getD j d = l.getD j d := by
  rw [List.getD_eq_getElem?_getD, List.getD_eq_getElem?_getD,
    List.getElem?_set_ne h]

/-- Success path of one iteration when the Booster reports zero error:
the step stops, after recording the learner weight and the zero error
into slot i. -/
theorem sbStep_zero_error (P : SBParams) (b : Booster) (mt : ℚ) (i : Nat)
    (st : SBState) (hk : 1 ≤ P.k_neighbors)
    (hmin : P.k_neighbors + 1 ≤ (minoritySubset st.X st.y mt).length)
    (hb0 : ∀ X y w, ∃ nw a,
      b i X y w = ((some nw : Option (List FVal)), a, (0 : ℚ))) :
    ∃ st2 a, sbStep P b mt i st = Except.ok (StepRes.stop st2) ∧
      st2.ew = st.ew.set i a ∧ st2.ee = st.ee.set i 0 := by
  have hne : minoritySubset st.X st.y mt ≠ [] := by
    intro hc
    rw [hc] at hmin
    simp at hmin
  unfold sbStep
  rw [smoteFit_ok _ _ _ hne]
  simp only []
  obtain ⟨Xs, g', hgo, hlenS⟩ :=
    smoteSampleGo_ok
      ⟨P.k_neighbors, P.seed, minoritySubset st.X st.y mt,
        ((minoritySubset st.X st.y mt).headD []).length⟩ hk hmin
      P.n_samples (npSeed P.seed)
  have hsam : smoteSample
      ⟨P.k_neighbors, P.seed, minoritySubset st.X st.y mt,
        ((minoritySubset st.X st.y mt).headD []).length⟩
      P.n_samples st.rng = Except.ok (Xs, g') := hgo
  rw [hsam]
  simp only []
  obtain ⟨nw, a, hba⟩ := hb0 (st.X ++ Xs)
    (st.y ++ List.replicate P.n_samples (int64Rat mt))
    (augmentedWeights st P.n_samples)
  refine ⟨⟨st.X ++ Xs, st.y ++ List.replicate P.n_samples (int64Rat mt), nw,
      st.ew.set i a, st.ee.set i 0, g'⟩, a, ?_, rfl, rfl⟩
  rw [hba]
  norm_num

/-- Success path of one iteration when the Booster signals stop (None
weights): the step stops without touching the ensemble arrays. -/
theorem sbStep_stop_signal (P : SBParams) (b : Booster) (mt : ℚ) (i : Nat)
    (st : SBState) (hk : 1 ≤ P.k_neighbors)
    (hmin : P.k_neighbors + 1 ≤ (minoritySubset st.X st.y mt).length)
    (hbs : ∀ X y w, (b i X y w).1 = (none : Option (List FVal))) :
    ∃ st2, sbStep P b mt i st = Except.ok (StepRes.stop st2) ∧
      st2.ew = st.ew ∧ st2.ee = st.ee := by
  have hne : minoritySubset st.X st.y mt ≠ [] := by
    intro hc
    rw [hc] at hmin
    simp at hmin
  unfold sbStep
  rw [smoteFit_ok _ _ _ hne]
  simp only []
  obtain ⟨Xs, g', hgo, hlenS⟩ :=
    smoteSampleGo_ok
      ⟨P.k_neighbors, P.seed, minoritySubset st.X st.y mt,
        ((minoritySubset st.X st.y mt).headD []).length⟩ hk hmin
      P.n_samples (npSeed P.seed)
  have hsam : smoteSample
      ⟨P.k_neighbors, P.seed, minoritySubset st.X st.y mt,
        ((minoritySubset st.X st.y mt).headD []).length⟩
      P.n_samples st.rng = Except.ok (Xs, g') := hgo
  rw [hsam]
  simp only []
  rcases hb : b i (st.X ++ Xs)
      (st.y ++ List.replicate P.n_samples (int64Rat mt))
      (augmentedWeights st P.n_samples) with ⟨onw, a, e⟩
  have honw : onw = none := by
    have h1 := hbs (st.X ++ Xs)
      (st.y ++ List.replicate P.n_samples (int64Rat mt))
      (augmentedWeights st P.n_samples)
    rw [hb] at h1
    exact h1
  subst honw
  exact ⟨_, rfl, rfl, rfl⟩

/-! ## Claim theorems -/

/-- C1 (amended): SMOTE.sample re-seeds numpy's global stream with the
stored random_state at the start of every call (line 45), so its output
is independent of the incoming stream state; in particular, for a fixed
random_state, two consecutive calls to sample(n) on the same fitted
sampler return identical outputs and leave the stream in the identical
state.  Within one call the draws are consumed in the fixed order
base-index, neighbor-query, neighbor-choice, gap, as written in
smoteSampleGo. -/
theorem c1_sample_reseeds_every_call (m : SMOTEModel) (n : Nat) (g0 g1 : NpRng) :
    smoteSample m n g0 = smoteSampleGo m n (npSeed m.seed) ∧
    smoteSample m n g0 = smoteSample m n g1 ∧
    (∀ S g', smoteSample m n g0 = Except.ok (S, g') →
      smoteSample m n g' = Except.ok (S, g')) :=
  ⟨rfl, rfl, fun _ _ h => h⟩

theorem c1_sample_reseeds_every_call_witness :
    smoteSample ⟨1, 42, [[0], [2], [5]], 1⟩ 2 ⟨42, 6⟩ =
      Except.ok ([[(598647165 : ℚ) / 1073741824], [(363232729 : ℚ) / 268435456]],
        ⟨42, 6⟩) :=
  (c1_sample_reseeds_every_call ⟨1, 42, [[0], [2], [5]], 1⟩ 2 (npSeed 42)
      ⟨42, 6⟩).2.2 _ _ (by with_unfolding_all rfl)

/-- C1 counterexample: the claim asserts that two consecutive sample(n)
calls on one fitted sampler continue a single stream seeded once at
construction, so they need not return identical outputs.  In the code,
sample re-seeds the global stream on entry: at this concrete fitted
sampler (k=1, random_state=42, three 1-dimensional minority points),
the first call ends with the stream at position 6, and the second call,
started from that advanced state, returns the identical output and ends
at position 6 again (a continued stream would end at position 12) — as
does a call started from a completely unrelated stream state. -/
theorem c1_counterexample :
    smoteSample ⟨1, 42, [[0], [2], [5]], 1⟩ 2 (npSeed 42) =
      Except.ok ([[(598647165 : ℚ) / 1073741824], [(363232729 : ℚ) / 268435456]],
        ⟨42, 6⟩) ∧
    smoteSample ⟨1, 42, [[0], [2], [5]], 1⟩ 2 ⟨42, 6⟩ =
      Except.ok ([[(598647165 : ℚ) / 1073741824], [(363232729 : ℚ) / 268435456]],
        ⟨42, 6⟩) ∧
    smoteSample ⟨1, 42, [[0], [2], [5]], 1⟩ 2 ⟨999, 123⟩ =
      Except.ok ([[(598647165 : ℚ) / 1073741824], [(363232729 : ℚ) / 268435456]],
        ⟨42, 6⟩) := by
  refine ⟨?_, ?_, ?_⟩ <;> with_unfolding_all rfl

/-- C2 (code-bug evaluation): the claim says a caller-supplied
sample_weight is rescaled to sum to 1 and that fit fails with the
invalid-weights error exactly when the supplied sum is ≤ 0.  In the
program, line 175 calls check_array, a name the module never imports,
so every fit call with a supplied sample_weight — whatever its sum —
crashes with NameError before any rescaling or checking: at the
concrete failing input sample_weight = [1, -3, 1, -1, 1] (sum -1 ≤ 0)
fit raises NameError, not the invalid-weights error.  Moreover the
continuation at lines 177-183 is dead code that could not implement
the claim either: it divides by the sum first, so on this input the
check would see the normalized sum 1 and pass (see also
deadNormalizeCheck_nonzero and deadNormalizeCheck_zero). -/
theorem c2_supplied_weights_name_error :
    (∀ (nN : Nat) (w : List ℚ),
      initWeights nN (some w) = Except.error SBError.nameError) ∧
    ([(1 : ℚ), -3, 1, -1, 1].sum ≤ 0) ∧
    smoteboostFit ⟨1, 1, 1, 1, 0⟩ (fun _ _ _ _ => (none, 0, 0))
      [[0], [1], [10], [11], [12]] [1, 1, 0, 0, 0]
      (some [1, -3, 1, -1, 1]) (some 1) (npSeed 0) =
      Except.error SBError.nameError ∧
    deadNormalizeCheck [1, -3, 1, -1, 1] =
      Except.ok [some (-1), some 3, some (-1), some 1, some (-1)] := by
  exact ⟨fun nN w => rfl, by norm_num, by with_unfolding_all rfl,
    by with_unfolding_all rfl⟩

/-- C3 counterexample: the claim says SMOTE.fit fails with the
insufficient-samples error when the minority set has fewer than k+1
points.  At the concrete input k=5 with only 2 minority points,
SMOTE.fit succeeds; the insufficient-samples error is raised only
later, by the neighbor query inside the first sample() call. -/
theorem c3_counterexample :
    smoteFit 5 0 [[0], [1]] = Except.ok ⟨5, 0, [[0], [1]], 1⟩ ∧
    smoteSample ⟨5, 0, [[0], [1]], 1⟩ 1 (npSeed 0) =
      Except.error SBError.insufficientSamples := by
  exact ⟨by with_unfolding_all rfl, by with_unfolding_all rfl⟩

/-- C3 (amended): SMOTE.fit succeeds for every nonempty minority set
regardless of its size relative to k; the insufficient-samples failure
(minority count < k+1) is raised by the neighbor query inside the first
sample(n) call with n ≥ 1; sample succeeds whenever the minority set
has at least k+1 points (and k ≥ 1, so the neighbor-choice list is
nonempty); and inside SMOTEBoost.fit, an error in the SMOTE step of any
iteration aborts the whole fit call with that error, returning no
result at all. -/
theorem c3_amended (k seed : Nat) (X : List (List ℚ)) :
    (X ≠ [] → smoteFit k seed X = Except.ok ⟨k, seed, X, (X.headD []).length⟩) ∧
    (∀ (m : SMOTEModel) (n : Nat) (g : NpRng), smoteFit k seed X = Except.ok m →
      1 ≤ n → X.length < k + 1 →
      smoteSample m n g = Except.error SBError.insufficientSamples) ∧
    (∀ (m : SMOTEModel) (n : Nat) (g : NpRng), smoteFit k seed X = Except.ok m →
      1 ≤ k → k + 1 ≤ X.length →
      ∃ S g', smoteSample m n g = Except.ok (S, g') ∧ S.length = n) ∧
    (∀ (P : SBParams) (b : Booster) (mt : ℚ) (fuel i : Nat) (st : SBState)
       (e : SBError),
      sbStep P b mt i st = Except.error e →
      sbLoop P b mt (fuel + 1) i st = Except.error e) ∧
    (∀ (P : SBParams) (b : Booster) (X0 : List (List ℚ)) (y0 : List ℚ)
       (sw : Option (List ℚ)) (mt : Option ℚ) (g : NpRng) (w0 : List FVal)
       (e : SBError),
      ¬P.learning_rate ≤ 0 →
      ¬(X0.length = 0 ∨ X0.length ≠ y0.length) →
      initWeights X0.length sw = Except.ok w0 →
      sbLoop P b (mt.getD (minorityOf y0)) P.n_estimators 0
        ⟨X0, y0, w0, List.replicate P.n_estimators 0,
          List.replicate P.n_estimators 1, g⟩ = Except.error e →
      smoteboostFit P b X0 y0 sw mt g = Except.error e) := by
  refine ⟨fun hne => smoteFit_ok k seed X hne, ?_, ?_, ?_, ?_⟩
  · intro m n g hfit hn hsmall
    obtain ⟨hne, hm⟩ := smoteFit_ok_inv k seed X m hfit
    subst hm
    have hne0 : X.length ≠ 0 := by
      intro hc
      exact hne (List.length_eq_zero.mp hc)
    exact smoteSampleGo_insufficient _ hsmall hne0 n hn _
  · intro m n g hfit hk hbig
    obtain ⟨hne, hm⟩ := smoteFit_ok_inv k seed X m hfit
    subst hm
    exact smoteSampleGo_ok _ hk hbig n _
  · intro P b mt fuel i st e h
    exact sbLoop_error_of_step P b mt fuel i st e h
  · intro P b X0 y0 sw mt g w0 e hlr hxy hw hloop
    exact smoteboostFit_loop_error P b X0 y0 sw mt g w0 e hlr hxy hw hloop

theorem c3_amended_witness :
    smoteFit 5 0 [[0], [1]] = Except.ok ⟨5, 0, [[0], [1]], 1⟩ ∧
    smoteSample ⟨5, 0, [[0], [1]], 1⟩ 1 (npSeed 0) =
      Except.error SBError.insufficientSamples ∧
    (∃ S g', smoteSample ⟨1, 0, [[0], [1]], 1⟩ 3 (npSeed 0) =
      Except.ok (S, g') ∧ S.length = 3) ∧
    smoteboostFit ⟨1, 1, 5, 1, 0⟩ (fun _ _ _ _ => (none, 0, 0))
      [[0], [1], [10], [11], [12]] [1, 1, 0, 0, 0] none (some 1) (npSeed 0) =
      Except.error SBError.insufficientSamples :=
  ⟨(c3_amended 5 0 [[0], [1]]).1 (by simp),
   (c3_amended 5 0 [[0], [1]]).2.1 ⟨5, 0, [[0], [1]], 1⟩ 1 (npSeed 0)
     (by with_unfolding_all rfl) (by norm_num) (by decide),
   (c3_amended 1 0 [[0], [1]]).2.2.1 ⟨1, 0, [[0], [1]], 1⟩ 3 (npSeed 0)
     (by with_unfolding_all rfl) (by norm_num) (by decide),
   (c3_amended 5 0 [[0], [1]]).2.2.2.2 ⟨1, 1, 5, 1, 0⟩
     (fun _ _ _ _ => (none, 0, 0)) [[0], [1], [10], [11], [12]]
     [1, 1, 0, 0, 0] none (some 1) (npSeed 0)
     (List.replicate 5 (some (1 / 5)))
     SBError.insufficientSamples
     (by norm_num) (by decide) (by with_unfolding_all rfl)
     (by with_unfolding_all rfl)⟩

/-- C4: every row returned by sample(n) equals base + gap*(neighbor -
base) with base a stored minority point, neighbor one of its k nearest
neighbors excluding the point itself (guaranteed when the minority rows
are pairwise distinct and rectangular), and gap a single scalar in
[0, 1) drawn once per generated sample and applied uniformly to all
features (interpRow applies the one gap to every coordinate); sample
returns exactly n rows; and in the boosting loop the appended labels
are all the minority label whenever that label is int64-representable. -/
theorem c4_sample_interpolation (m : SMOTEModel) (n : Nat) (g g' : NpRng)
    (S : List (List ℚ)) (h : smoteSample m n g = Except.ok (S, g')) :
    S.length = n ∧
    (∀ row ∈ S, ∃ j c gap l,
      j < m.X.length ∧ kneighborsExcl m j = Except.ok l ∧ c ∈ l ∧
      (m.X.Nodup → (∀ r ∈ m.X, r.length = (m.X.headD []).length) → c ≠ j) ∧
      0 ≤ gap ∧ gap < 1 ∧
      row = interpRow (m.X.getD j []) (m.X.getD c []) gap) ∧
    (∀ (P : SBParams) (b : Booster) (mt : ℚ) (i : Nat) (st : SBState)
       (r : StepRes),
      sbStep P b mt i st = Except.ok r → ReprInt64 mt →
      r.state.y = st.y ++ List.replicate P.n_samples mt) := by
  refine ⟨smoteSampleGo_length m n _ S g' h, ?_, ?_⟩
  · intro row hrow
    obtain ⟨j, c, gap, l, hj, hknn, hc, hg0, hg1, hform⟩ :=
      smoteSampleGo_rows m n _ S g' h row hrow
    refine ⟨j, c, gap, l, hj, hknn, hc, ?_, hg0, hg1, hform⟩
    intro hnd hrect
    intro hcj
    subst hcj
    exact kneighborsExcl_not_self m c l hnd hrect hj hknn hc
  · intro P b mt i st r hstep hrepr
    have h1 := (sbStep_append P b mt i st r hstep).choose_spec.choose_spec.choose_spec.2.2.2.2
    have h2 : int64Rat mt = mt := (int64Rat_eq_iff mt).mpr hrepr
    rw [h2] at h1
    exact h1

theorem sbIter_lengths (P : SBParams) (b : Booster) (mt : ℚ)
    (hb : ∀ i X y w nw a e, b i X y w = ((some nw : Option (List FVal)), a, e) →
      nw.length = w.length) :
    ∀ (j i : Nat) (st st' : SBState), sbIter P b mt j i st = some st' →
      st'.X.length = st.X.length + j * P.n_samples ∧
      st'.y.length = st.y.length + j * P.n_samples ∧
      st'.w.length = st.w.length + j * P.n_samples := by
  intro j
  induction j with
  | zero =>
    intro i st st' h
    unfold sbIter at h
    cases h
    simp
  | succ j ih =>
    intro i st st' h
    rw [sbIter] at h
    cases h1 : sbStep P b mt i st with
    | error e => rw [h1] at h; cases h
    | ok r =>
      rw [h1] at h
      cases r with
      | stop st2 => simp only [] at h; cases h
      | cont st2 =>
        simp only [] at h
        obtain ⟨hX, hy, hw⟩ :=
          sbStep_lengths P b mt i st (StepRes.cont st2)
            (fun X y w nw a e => hb i X y w nw a e) h1
        obtain ⟨hX2, hy2, hw2⟩ := ih (i + 1) st2 st' h
        have hmul : Nat.succ j * P.n_samples = j * P.n_samples + P.n_samples :=
          Nat.succ_mul _ _
        refine ⟨?_, ?_, ?_⟩
        · rw [hX2, hmul]
          have hX' : st2.X.length = st.X.length + P.n_samples := hX
          omega
        · rw [hy2, hmul]
          have hy' : st2.y.length = st.y.length + P.n_samples := hy
          omega
        · rw [hw2, hmul]
          have hw' : st2.w.length = st.w.length + P.n_samples := hw
          omega

/-- C5: every run of j loop iterations that all complete without early
stop grows the dataset, labels and weights by exactly j * n_samples
entries each — so starting from the initial state (weight length equal
to dataset length) the invariant length(w) = length(X) = length(y)
holds at every iteration boundary, and the dataset length after
iteration i (0-indexed) is originalN + (i+1) * n_samples; such a run is
a prefix of the loop sbLoop; and at the Booster-call point inside an
iteration the combined renormalized weight vector likewise has length
equal to the augmented dataset length. -/
theorem c5_dataset_and_weight_growth (P : SBParams) (b : Booster) (mt : ℚ)
    (hb : ∀ i X y w nw a e, b i X y w = ((some nw : Option (List FVal)), a, e) →
      nw.length = w.length)
    (j i : Nat) (st st' : SBState) (h : sbIter P b mt j i st = some st') :
    (st'.X.length = st.X.length + j * P.n_samples ∧
     st'.y.length = st.y.length + j * P.n_samples ∧
     st'.w.length = st.w.length + j * P.n_samples) ∧
    (st.w.length = st.X.length → st.y.length = st.X.length →
      st'.w.length = st'.X.length ∧ st'.y.length = st'.X.length) ∧
    (∀ fuel, sbLoop P b mt (j + fuel) i st = sbLoop P b mt fuel (i + j) st') ∧
    (augmentedWeights st P.n_samples).length = st.w.length + P.n_samples := by
  obtain ⟨hX, hy, hw⟩ := sbIter_lengths P b mt hb j i st st' h
  refine ⟨⟨hX, hy, hw⟩, ?_, fun fuel => sbIter_sbLoop P b mt j i fuel st st' h,
    augmentedWeights_length st P.n_samples⟩
  intro hw0 hy0
  constructor
  · rw [hX, hw, hw0]
  · rw [hX, hy, hy0]

def c5P : SBParams := ⟨1, 5, 1, 1, 0⟩

def c5b : Booster := fun _ _ _ w => (some w, 1, 1 / 2)

def c5st0 : SBState :=
  ⟨[[0], [1], [10], [11], [12]], [1, 1, 0, 0, 0],
    List.replicate 5 (some (1 / 5)), List.replicate 5 0,
    List.replicate 5 1, npSeed 0⟩

def c5res : SBState := (sbIter c5P c5b 1 2 0 c5st0).getD c5st0

theorem c5_dataset_and_weight_growth_witness :
    c5res.X.length = c5st0.X.length + 2 * c5P.n_samples ∧
    c5res.y.length = c5st0.y.length + 2 * c5P.n_samples ∧
    c5res.w.length = c5st0.w.length + 2 * c5P.n_samples :=
  (c5_dataset_and_weight_growth c5P c5b 1
    (fun _ _ _ w nw _ _ h => by
      injection h with h1 h2
      injection h1 with h3
      rw [← h3])
    2 0 c5st0 c5res (by with_unfolding_all rfl)).1

/-- C6: in each iteration the synthetic samples get initial weight
1/N_current with N_current the dataset size before augmentation (that
is the literal content of augmentedWeights, used by sbStep), the
combined vector renormalized with L1 sums to exactly 1 (hence within
any tolerance) whenever the incoming weights are ordinary nonnegative
numbers, and the post-Booster renormalization w / sum(w) likewise
yields an exact sum of 1 for nonnegative weights with positive sum. -/
theorem c6_weight_init_and_normalization (st : SBState) (n : Nat)
    (w0 : List ℚ) (hw : st.w = w0.map some) (hnn : ∀ x ∈ w0, 0 ≤ x)
    (hN : 0 < st.X.length) (hn : 0 < n) :
    augmentedWeights st n =
      l1normalize (st.w ++ List.replicate n (some (1 / (st.X.length : ℚ)))) ∧
    fsum (augmentedWeights st n) = some 1 ∧
    (∀ q : List ℚ, (∀ x ∈ q, 0 ≤ x) → 0 < q.sum →
      fsum ((q.map some).map (fun x => fdiv x (fsum (q.map some)))) = some 1) := by
  have hNQ : (0 : ℚ) < (st.X.length : ℚ) := by exact_mod_cast hN
  have hc : (0 : ℚ) < 1 / (st.X.length : ℚ) := by positivity
  have hcomb : st.w ++ List.replicate n (some (1 / (st.X.length : ℚ))) =
      (w0 ++ List.replicate n (1 / (st.X.length : ℚ))).map some := by
    rw [hw, List.map_append, List.map_replicate]
  have hnn2 : ∀ x ∈ w0 ++ List.replicate n (1 / (st.X.length : ℚ)), 0 ≤ x := by
    intro x hx
    rcases List.mem_append.mp hx with h1 | h1
    · exact hnn x h1
    · rw [List.eq_of_mem_replicate h1]
      exact le_of_lt hc
  have hpos : 0 < (w0 ++ List.replicate n (1 / (st.X.length : ℚ))).sum := by
    rw [List.sum_append, List.sum_replicate]
    have h1 : (0 : ℚ) ≤ w0.sum := List.sum_nonneg hnn
    have h2 : (0 : ℚ) < n • (1 / (st.X.length : ℚ)) := by
      rw [nsmul_eq_mul]
      have h3 : (0 : ℚ) < (n : ℚ) := by exact_mod_cast hn
      exact mul_pos h3 hc
    linarith
  refine ⟨rfl, ?_, ?_⟩
  · unfold augmentedWeights
    rw [hcomb]
    exact (l1normalize_map_some _ hnn2 hpos).2
  · intro q hq hqpos
    rw [fsum_map_some, map_fdiv_some q q.sum (ne_of_gt hqpos), fsum_map_some,
      sum_map_div, div_self (ne_of_gt hqpos)]

theorem c6_weight_init_and_normalization_witness :
    fsum (augmentedWeights
      ⟨[[0], [1]], [1, 1], [some (1 / 2), some (1 / 2)], [], [], npSeed 0⟩ 1) =
      some 1 :=
  (c6_weight_init_and_normalization
    ⟨[[0], [1]], [1, 1], [some (1 / 2), some (1 / 2)], [], [], npSeed 0⟩ 1
    [1 / 2, 1 / 2] rfl
    (by
      intro x hx
      rcases List.mem_cons.mp hx with h | h
      · rw [h]; norm_num
      · rcases List.mem_cons.mp h with h2 | h2
        · rw [h2]; norm_num
        · simp at h2)
    (by decide) (by decide)).2.1

/-- C7: if the Booster reports zero error at iteration i, the loop
records the learner weight and the zero error into ensemble slot i and
terminates immediately with no error raised; every other slot — in
particular every slot after i — keeps whatever value it had (the
defaults weight 0 / error 1 set at initialization).  Likewise a Booster
stop signal (None weights) at iteration i terminates the loop with slot
i and all later slots completely untouched. -/
theorem c7_early_termination (P : SBParams) (mt : ℚ) (i fuel : Nat)
    (st : SBState) (hk : 1 ≤ P.k_neighbors)
    (hmin : P.k_neighbors + 1 ≤ (minoritySubset st.X st.y mt).length) :
    (∀ b : Booster,
      (∀ X y w, ∃ nw a,
        b i X y w = ((some nw : Option (List FVal)), a, (0 : ℚ))) →
      ∃ st' a, sbLoop P b mt (fuel + 1) i st = Except.ok st' ∧
        st'.ew = st.ew.set i a ∧ st'.ee = st.ee.set i 0 ∧
        ∀ j d d', j ≠ i → st'.ew.getD j d = st.ew.getD j d ∧
          st'.ee.getD j d' = st.ee.getD j d') ∧
    (∀ b : Booster,
      (∀ X y w, (b i X y w).1 = (none : Option (List FVal))) →
      ∃ st', sbLoop P b mt (fuel + 1) i st = Except.ok st' ∧
        st'.ew = st.ew ∧ st'.ee = st.ee) := by
  constructor
  · intro b hb0
    obtain ⟨st2, a, hstep, hew, hee⟩ :=
      sbStep_zero_error P b mt i st hk hmin hb0
    refine ⟨st2, a, ?_, hew, hee, ?_⟩
    · rw [sbLoop, hstep]
    · intro j d d' hj
      constructor
      · rw [hew, getD_set_ne _ _ _ _ _ (fun hc => hj hc.symm)]
      · rw [hee, getD_set_ne _ _ _ _ _ (fun hc => hj hc.symm)]
  · intro b hbs
    obtain ⟨st2, hstep, hew, hee⟩ :=
      sbStep_stop_signal P b mt i st hk hmin hbs
    refine ⟨st2, ?_, hew, hee⟩
    rw [sbLoop, hstep]

def c7st : SBState :=
  ⟨[[0], [1], [10], [11], [12]], [1, 1, 0, 0, 0],
    List.replicate 5 (some (1 / 5)), List.replicate 5 0,
    List.replicate 5 1, npSeed 0⟩

theorem c7_early_termination_witness :
    ∃ st' a, sbLoop ⟨1, 5, 1, 1, 0⟩ (fun _ _ _ w => (some w, 7, 0)) 1
        (2 + 1) 2 c7st = Except.ok st' ∧
      st'.ew = c7st.ew.set 2 a ∧ st'.ee = c7st.ee.set 2 0 ∧
      ∀ j d d', j ≠ 2 → st'.ew.getD j d = c7st.ew.getD j d ∧
        st'.ee.getD j d' = c7st.ee.getD j d' :=
  (c7_early_termination ⟨1, 5, 1, 1, 0⟩ 1 2 2 c7st (by norm_num)
    (by
      rw [show minoritySubset c7st.X c7st.y 1 = [[0], [1]] from by
        with_unfolding_all rfl]
      decide)).1
    (fun _ _ _ w => (some w, 7, 0)) (fun _ _ w => ⟨w, 7, rfl⟩)

theorem npRandint_error (m : Nat) (g : NpRng) (e : SBError)
    (h : npRandint m g = Except.error e) : e = SBError.emptyRandint := by
  unfold npRandint npNext at h
  split at h
  · injection h with h1
    exact h1.symm
  · cases h

theorem npChoice_error (l : List Nat) (g : NpRng) (e : SBError)
    (h : npChoice l g = Except.error e) : e = SBError.emptyChoice := by
  unfold npChoice npNext at h
  split at h
  · injection h with h1
    exact h1.symm
  · cases h

theorem kneighborsExcl_error (m : SMOTEModel) (j : Nat) (e : SBError)
    (h : kneighborsExcl m j = Except.error e) :
    e = SBError.insufficientSamples := by
  unfold kneighborsExcl at h
  split at h
  · injection h with h1
    exact h1.symm
  · cases h

theorem smoteFit_error (k seed : Nat) (X : List (List ℚ)) (e : SBError)
    (h : smoteFit k seed X = Except.error e) : e = SBError.emptyFit := by
  unfold smoteFit at h
  split at h
  · injection h with h1
    exact h1.symm
  · cases h

theorem initWeights_error (nN : Nat) (sw : Option (List ℚ)) (e : SBError)
    (h : initWeights nN sw = Except.error e) : e = SBError.nameError := by
  unfold initWeights at h
  cases sw with
  | none => cases h
  | some w =>
    injection h with h1
    exact h1.symm

theorem smoteSampleGo_error_mem (m : SMOTEModel) :
    ∀ (n : Nat) (g : NpRng) (e : SBError),
      smoteSampleGo m n g = Except.error e →
      e = SBError.emptyRandint ∨ e = SBError.insufficientSamples ∨
        e = SBError.emptyChoice := by
  intro n
  induction n with
  | zero =>
    intro g e h
    unfold smoteSampleGo at h
    cases h
  | succ n ih =>
    intro g e h
    rw [smoteSampleGo] at h
    cases h1 : npRandint m.X.length g with
    | error e1 =>
      rw [h1] at h
      simp only [] at h
      injection h with h2
      exact Or.inl (h2 ▸ npRandint_error _ _ _ h1)
    | ok p =>
      obtain ⟨j, g1⟩ := p
      rw [h1] at h
      simp only [] at h
      cases h2 : kneighborsExcl m j with
      | error e2 =>
        rw [h2] at h
        simp only [] at h
        injection h with h3
        exact Or.inr (Or.inl (h3 ▸ kneighborsExcl_error _ _ _ h2))
      | ok nn =>
        rw [h2] at h
        simp only [] at h
        cases h3 : npChoice nn g1 with
        | error e3 =>
          rw [h3] at h
          simp only [] at h
          injection h with h4
          exact Or.inr (Or.inr (h4 ▸ npChoice_error _ _ _ h3))
        | ok p2 =>
          obtain ⟨c, g2⟩ := p2
          rw [h3] at h
          simp only [] at h
          rcases h4 : npRandom g2 with ⟨gap, g3⟩
          rw [h4] at h
          simp only [] at h
          cases h5 : smoteSampleGo m n g3 with
          | error e5 =>
            rw [h5] at h
            simp only [] at h
            injection h with h6
            exact h6 ▸ ih g3 e5 h5
          | ok p3 =>
            obtain ⟨rest, g4⟩ := p3
            rw [h5] at h
            simp only [] at h
            cases h

theorem sbStep_error_mem (P : SBParams) (b : Booster) (mt : ℚ) (i : Nat)
    (st : SBState) (e : SBError) (h : sbStep P b mt i st = Except.error e) :
    e = SBError.emptyFit ∨ e = SBError.emptyRandint ∨
      e = SBError.insufficientSamples ∨ e = SBError.emptyChoice := by
  unfold sbStep at h
  cases h1 : smoteFit P.k_neighbors P.seed (minoritySubset st.X st.y mt) with
  | error e1 =>
    rw [h1] at h
    simp only [] at h
    injection h with h2
    exact Or.inl (h2 ▸ smoteFit_error _ _ _ _ h1)
  | ok sm =>
    rw [h1] at h
    simp only [] at h
    cases h2 : smoteSample sm P.n_samples st.rng with
    | error e2 =>
      rw [h2] at h
      simp only [] at h
      injection h with h3
      exact h3 ▸ Or.inr (smoteSampleGo_error_mem sm P.n_samples (npSeed sm.seed) e2 h2)
    | ok p =>
      obtain ⟨Xsyn, rng'⟩ := p
      rw [h2] at h
      simp only [] at h
      rcases h3 : b i (st.X ++ Xsyn)
          (st.y ++ List.replicate P.n_samples (int64Rat mt))
          (augmentedWeights st P.n_samples) with ⟨onw, a, e'⟩
      rw [h3] at h
      cases onw with
      | none => simp only [] at h; cases h
      | some nw =>
        simp only [] at h
        by_cases he : e' = 0
        · rw [if_pos he] at h; cases h
        · rw [if_neg he] at h
          by_cases hs : fle (fsum nw) (some 0) = true
          · rw [if_pos hs] at h; cases h
          · rw [if_neg hs] at h
            by_cases hi : i < P.n_estimators - 1
            · rw [if_pos hi] at h; cases h
            · rw [if_neg hi] at h; cases h

theorem sbLoop_error_mem (P : SBParams) (b : Booster) (mt : ℚ) :
    ∀ (fuel i : Nat) (st : SBState) (e : SBError),
      sbLoop P b mt fuel i st = Except.error e →
      e = SBError.emptyFit ∨ e = SBError.emptyRandint ∨
        e = SBError.insufficientSamples ∨ e = SBError.emptyChoice := by
  intro fuel
  induction fuel with
  | zero =>
    intro i st e h
    unfold sbLoop at h
    cases h
  | succ fuel ih =>
    intro i st e h
    rw [sbLoop] at h
    cases h1 : sbStep P b mt i st with
    | error e1 =>
      rw [h1] at h
      simp only [] at h
      injection h with h2
      exact h2 ▸ sbStep_error_mem P b mt i st e1 h1
    | ok r =>
      rw [h1] at h
      cases r with
      | stop st2 => simp only [] at h; cases h
      | cont st2 =>
        simp only [] at h
        exact ih (i + 1) st2 e h

theorem smoteboostFitBody_error_ne (P : SBParams) (b : Booster)
    (X : List (List ℚ)) (y : List ℚ) (sw : Option (List ℚ)) (mt : Option ℚ)
    (g : NpRng) (e : SBError)
    (h : smoteboostFitBody P b X y sw mt g = Except.error e) :
    e ≠ SBError.invalidParameter := by
  unfold smoteboostFitBody at h
  by_cases hxy : X.length = 0 ∨ X.length ≠ y.length
  · rw [if_pos hxy] at h
    injection h with h1
    rw [← h1]
    intro hc
    cases hc
  · rw [if_neg hxy] at h
    cases hw : initWeights X.length sw with
    | error e1 =>
      rw [hw] at h
      simp only [] at h
      injection h with h1
      rw [← h1, initWeights_error _ _ _ hw]
      intro hc
      cases hc
    | ok w0 =>
      rw [hw] at h
      simp only [] at h
      cases hl : sbLoop P b (mt.getD (minorityOf y)) P.n_estimators 0
          ⟨X, y, w0, List.replicate P.n_estimators 0,
            List.replicate P.n_estimators 1, g⟩ with
      | error e2 =>
        rw [hl] at h
        simp only [] at h
        injection h with h1
        rw [← h1]
        rcases sbLoop_error_mem P b (mt.getD (minorityOf y)) P.n_estimators 0 _
            e2 hl with h2 | h2 | h2 | h2 <;>
          · rw [h2]
            intro hc
            cases hc
      | ok stF =>
        rw [hl] at h
        simp only [] at h
        cases h

/-- C8: a non-positive learning_rate makes fit fail with the
invalid-parameter error before any other work (so no ensemble state is
produced); with a positive learning_rate the check passes — fit reduces
to the rest of its body, and no execution path of that body can ever
produce the invalid-parameter error. -/
theorem c8_learning_rate_guard (P : SBParams) (b : Booster)
    (X : List (List ℚ)) (y : List ℚ) (sw : Option (List ℚ)) (mt : Option ℚ)
    (g : NpRng) :
    (P.learning_rate ≤ 0 →
      smoteboostFit P b X y sw mt g = Except.error SBError.invalidParameter) ∧
    (0 < P.learning_rate →
      smoteboostFit P b X y sw mt g = smoteboostFitBody P b X y sw mt g ∧
      smoteboostFit P b X y sw mt g ≠
        Except.error SBError.invalidParameter) := by
  constructor
  · intro hle
    unfold smoteboostFit
    rw [if_pos hle]
  · intro hlt
    have heq : smoteboostFit P b X y sw mt g = smoteboostFitBody P b X y sw mt g := by
      unfold smoteboostFit
      rw [if_neg (not_le.mpr hlt)]
    refine ⟨heq, ?_⟩
    rw [heq]
    intro hc
    exact smoteboostFitBody_error_ne P b X y sw mt g _ hc rfl

theorem c8_learning_rate_guard_witness :
    smoteboostFit ⟨1, 1, 1, 0, 0⟩ (fun _ _ _ _ => (none, 0, 0))
      [[0], [1]] [0, 1] none none (npSeed 0) =
      Except.error SBError.invalidParameter ∧
    smoteboostFit ⟨1, 1, 1, 1, 0⟩ (fun _ _ _ _ => (none, 0, 0))
      [[0], [1]] [0, 1] none none (npSeed 0) ≠
      Except.error SBError.invalidParameter :=
  ⟨(c8_learning_rate_guard ⟨1, 1, 1, 0, 0⟩ (fun _ _ _ _ => (none, 0, 0))
      [[0], [1]] [0, 1] none none (npSeed 0)).1 (by norm_num),
   ((c8_learning_rate_guard ⟨1, 1, 1, 1, 0⟩ (fun _ _ _ _ => (none, 0, 0))
      [[0], [1]] [0, 1] none none (npSeed 0)).2 (by norm_num)).2⟩

/-- C9: the orchestrator never modifies, removes or reorders existing
samples: every successful iteration produces the previous dataset with
the synthetic batch appended at the end (and the labels likewise), and
over any successful run of the loop the final dataset is the initial
dataset followed by the accumulated synthetic tail in generation
order. -/
theorem c9_append_only (P : SBParams) (b : Booster) (mt : ℚ) :
    (∀ (i : Nat) (st : SBState) (r : StepRes),
      sbStep P b mt i st = Except.ok r →
      ∃ Xs, Xs.length = P.n_samples ∧ r.state.X = st.X ++ Xs ∧
        r.state.y = st.y ++ List.replicate P.n_samples (int64Rat mt)) ∧
    (∀ (fuel i : Nat) (st st' : SBState),
      sbLoop P b mt fuel i st = Except.ok st' →
      ∃ tX ty, st'.X = st.X ++ tX ∧ st'.y = st.y ++ ty) := by
  constructor
  · intro i st r h
    obtain ⟨sm, Xs, rg, hfit, hsam, hlen, hX, hy⟩ := sbStep_append P b mt i st r h
    exact ⟨Xs, hlen, hX, hy⟩
  · exact sbLoop_append P b mt

def c9P : SBParams := ⟨1, 2, 1, 1, 0⟩

def c9b : Booster := fun _ _ _ w => (some w, 1, 1 / 2)

def c9st0 : SBState :=
  ⟨[[0], [1], [10], [11], [12]], [1, 1, 0, 0, 0],
    List.replicate 5 (some (1 / 5)), List.replicate 2 0,
    List.replicate 2 1, npSeed 0⟩

def c9res : SBState :=
  match sbLoop c9P c9b 1 2 0 c9st0 with
  | Except.ok s => s
  | Except.error _ => c9st0

theorem c9_append_only_witness :
    ∃ tX ty, c9res.X = c9st0.X ++ tX ∧ c9res.y = c9st0.y ++ ty :=
  (c9_append_only c9P c9b 1).2 2 0 c9st0 c9res (by with_unfolding_all rfl)

/-- C10: the labels attached to each iteration's synthetic batch are
the minority label coerced to int64 (truncation toward zero, wrapped
into the 64-bit range); the coercion preserves the label exactly when
the label is an integer representable in 64 bits; for any other label
the appended labels differ from the minority label, and consequently a
later minority-subset extraction does not match the synthetic rows at
all. -/
theorem c10_int64_label_coercion (P : SBParams) (b : Booster) (mt : ℚ) :
    (∀ (i : Nat) (st : SBState) (r : StepRes),
      sbStep P b mt i st = Except.ok r →
      r.state.y = st.y ++ List.replicate P.n_samples (int64Rat mt)) ∧
    (int64Rat mt = mt ↔ ReprInt64 mt) ∧
    (¬ReprInt64 mt → int64Rat mt ≠ mt) ∧
    (∀ (X Xs : List (List ℚ)) (y : List ℚ), X.length = y.length →
      int64Rat mt ≠ mt →
      minoritySubset (X ++ Xs)
        (y ++ List.replicate P.n_samples (int64Rat mt)) mt =
        minoritySubset X y mt) := by
  refine ⟨?_, int64Rat_eq_iff mt, ?_, ?_⟩
  · intro i st r h
    obtain ⟨sm, Xs, rg, hfit, hsam, hlen, hX, hy⟩ := sbStep_append P b mt i st r h
    exact hy
  · intro hnr hc
    exact hnr ((int64Rat_eq_iff mt).mp hc)
  · intro X Xs y hlen hne
    exact minoritySubset_append_ne X Xs y P.n_samples (int64Rat mt) mt hlen hne

theorem c10_int64_label_coercion_witness :
    int64Rat (1 / 2) ≠ 1 / 2 ∧
    minoritySubset ([[0]] ++ [[5]])
      ([1 / 2] ++ List.replicate 1 (int64Rat (1 / 2))) (1 / 2) =
      minoritySubset [[0]] [1 / 2] (1 / 2) := by
  have hnr : ¬ReprInt64 (1 / 2) := by
    rintro ⟨z, hz, h1, h2⟩
    have hd := congrArg Rat.den hz
    rw [Rat.den_intCast] at hd
    have hd2 : ((1 : ℚ) / 2).den = 2 := by with_unfolding_all rfl
    rw [hd2] at hd
    exact absurd hd (by norm_num)
  have hne : int64Rat (1 / 2) ≠ 1 / 2 :=
    (c10_int64_label_coercion ⟨1, 1, 1, 1, 0⟩
      (fun _ _ _ _ => (none, 0, 0)) (1 / 2)).2.2.1 hnr
  exact ⟨hne,
    (c10_int64_label_coercion ⟨1, 1, 1, 1, 0⟩
      (fun _ _ _ _ => (none, 0, 0)) (1 / 2)).2.2.2 [[0]] [[5]] [1 / 2] rfl hne⟩

def c4run : List (List ℚ) × NpRng :=
  match smoteSample ⟨1, 7, [[0], [2], [5]], 1⟩ 2 (npSeed 7) with
  | Except.ok p => p
  | Except.error _ => ([], npSeed 7)

theorem c4_sample_interpolation_witness :
    c4run.1.length = 2 :=
  (c4_sample_interpolation ⟨1, 7, [[0], [2], [5]], 1⟩ 2 (npSeed 7) c4run.2
    c4run.1 (by with_unfolding_all rfl)).1
